import Mathlib

/-!
Shallow embedding of `RPGD_main.py`, the release-point ground-truth
comparison script.

The script aligns two candidate position sources (`src1`, `src2`) to a
reference source (`src3`) with `pd.merge_asof(..., direction="nearest")`,
computes per-axis mean absolute errors with sklearn
`mean_absolute_error`, and assembles a three-row summary table.

Modelling choices:
* a dataframe row is a `Sample` (timestamp plus x/y/z); a `src3` row also
  carries the `Xrange`/`Yrange`/`Zrange` columns (`RefSample`);
* timestamps are `Int` (epoch-scaled), coordinates are `ℚ`;
* `pd.merge_asof` validates that both key columns are monotonically
  increasing (raising `ValueError` otherwise, modelled as
  `RunError.leftKeysNotSorted` / `RunError.rightKeysNotSorted`) and, for
  direction nearest, combines a backward search (last right key at most
  the left key) with a forward search (first right key at least the left
  key), preferring the backward match when the two differences are equal;
  a missing match is `none` (pandas fills `NaN`);
* sklearn `mean_absolute_error` input validation is modelled by the
  explicit error cases of `mean_absolute_error` below (inconsistent
  lengths, zero samples, `NaN` input);
* `DataFrame.sort_values` and `DataFrame.rename` return new frames; the
  script calls them with the default `inplace=False` semantics.  The heap
  of caller-visible frames is the `Mem` structure and `run` threads it
  explicitly.  Column renaming (source lines 17-18) only relabels
  columns, which this embedding resolves statically to record fields;
* `round(v, 4)` is modelled as decimal rounding half-up to 4 places
  (`round4`); the script only displays rounded values and never feeds
  them back into a computation.
-/

/-- One dataframe row of a candidate source: a timestamped 3-D position. -/
structure Sample where
  t : Int
  x : ℚ
  y : ℚ
  z : ℚ
deriving DecidableEq, Repr

/-- One dataframe row of the reference source `src3`: position plus the
self-reported per-axis uncertainty range columns. -/
structure RefSample where
  t : Int
  x : ℚ
  y : ℚ
  z : ℚ
  xrange : ℚ
  yrange : ℚ
  zrange : ℚ
deriving DecidableEq, Repr

/-- Position part of a reference row (the columns that take part in the
merge and the metric). -/
def RefSample.toSample (r : RefSample) : Sample :=
  ⟨r.t, r.x, r.y, r.z⟩

/-- One aligned pair: a reference sample together with the candidate
sample matched to it by the nearest-timestamp merge. -/
structure AlignedPair where
  reference : Sample
  matched : Sample
deriving DecidableEq, Repr

/-- Failures the script can hit: `pd.merge_asof` rejects unsorted key
columns, and sklearn `mean_absolute_error` rejects mismatched lengths,
zero samples and `NaN` input. -/
inductive RunError where
  | leftKeysNotSorted
  | rightKeysNotSorted
  | metricLengthMismatch
  | metricEmptyInput
  | metricNanInput
deriving DecidableEq, Repr

/-- The pandas monotonically-increasing check on a timestamp key column. -/
def timesSorted : List Sample → Bool
  | [] => true
  | [_] => true
  | a :: b :: l => decide (a.t ≤ b.t) && timesSorted (b :: l)

/-- Backward asof search: the last candidate sample whose timestamp is at
most `t` (pandas backward search with exact matches allowed). -/
def asofBackward (t : Int) : List Sample → Option Sample
  | [] => none
  | c :: l =>
    if c.t ≤ t then
      match asofBackward t l with
      | some b => some b
      | none => some c
    else asofBackward t l

/-- Forward asof search: the first candidate sample whose timestamp is at
least `t` (pandas forward search with exact matches allowed). -/
def asofForward (t : Int) : List Sample → Option Sample
  | [] => none
  | c :: l => if t ≤ c.t then some c else asofForward t l

/-- Nearest-timestamp match of `pd.merge_asof(..., direction="nearest")`:
the backward match is taken when its timestamp difference is at most the
forward one, so equidistant ties go to the earlier candidate. -/
def nearestMatch (t : Int) (cand : List Sample) : Option Sample :=
  match asofBackward t cand, asofForward t cand with
  | some b, some f => if t - b.t ≤ f.t - t then some b else some f
  | some b, none => some b
  | none, some f => some f
  | none, none => none

/-- Model of `pd.merge_asof(src3, cand, left_on="Time",
right_on="Time_i", direction="nearest")` (source lines 22-23): both key
columns must be sorted, every left (reference) row is kept, and the
matched right row is `none` exactly when no candidate row exists. -/
def mergeAsof (ref cand : List Sample) :
    Except RunError (List (Sample × Option Sample)) :=
  if timesSorted ref then
    if timesSorted cand then
      .ok (ref.map fun r => (r, nearestMatch r.t cand))
    else .error .rightKeysNotSorted
  else .error .leftKeysNotSorted

/-- Insertion into a key-sorted list, placing the new element before
existing elements with an equal key (stable insertion). -/
def insertByKey (key : α → Int) (a : α) : List α → List α
  | [] => [a]
  | b :: l => if key b < key a then b :: insertByKey key a l else a :: b :: l

/-- Stable sort by an integer key, modelling the sorted copy produced by
`DataFrame.sort_values(by="Time")`. -/
def sortByKey (key : α → Int) : List α → List α
  | [] => []
  | a :: l => insertByKey key a (sortByKey key l)

/-- Model of `DataFrame.sort_values` on a stored frame: the result is the
pair (stored frame after the call, returned frame).  The stored frame is
replaced only when `inplace` is true; the script always uses the default
`inplace = false`, so the sorted copy is only the returned value. -/
def sort_values (inplace : Bool) (key : α → Int) (stored : List α) :
    List α × List α :=
  (if inplace then sortByKey key stored else stored, sortByKey key stored)

/-- Collapse a column with possibly missing entries (`NaN`) into a plain
column; fails when any entry is missing. -/
def seqCol : List (Option ℚ) → Option (List ℚ)
  | [] => some []
  | none :: _ => none
  | some a :: rest => (seqCol rest).map fun v => a :: v

/-- Arithmetic mean of a list of rationals (sum divided by length); also
models `np.mean` on a column. -/
def mean (l : List ℚ) : ℚ := l.sum / l.length

/-- Model of `sklearn.metrics.mean_absolute_error` on two dataframe
columns, including its input validation: inconsistent lengths, zero
samples and `NaN` entries are rejected with a `ValueError`. -/
def mean_absolute_error (yTrue yPred : List (Option ℚ)) :
    Except RunError ℚ :=
  if yTrue.length ≠ yPred.length then .error .metricLengthMismatch
  else if yTrue.length = 0 then .error .metricEmptyInput
  else
    match seqCol yTrue, seqCol yPred with
    | some a, some b => .ok (mean ((a.zip b).map fun p => |p.1 - p.2|))
    | _, _ => .error .metricNanInput

/-- Reference x column (`X`, from `src3`) of a merged frame. -/
def colRefX (rows : List (Sample × Option Sample)) : List (Option ℚ) :=
  rows.map fun row => some row.1.x

/-- Reference y column (`Y`, from `src3`) of a merged frame. -/
def colRefY (rows : List (Sample × Option Sample)) : List (Option ℚ) :=
  rows.map fun row => some row.1.y

/-- Reference z column (`Z`, from `src3`) of a merged frame. -/
def colRefZ (rows : List (Sample × Option Sample)) : List (Option ℚ) :=
  rows.map fun row => some row.1.z

/-- Matched candidate x column (`X_1` or `X_2`) of a merged frame; a
missing match is `NaN`. -/
def colMatchedX (rows : List (Sample × Option Sample)) : List (Option ℚ) :=
  rows.map fun row => row.2.map Sample.x

/-- Matched candidate y column (`Y_1` or `Y_2`) of a merged frame. -/
def colMatchedY (rows : List (Sample × Option Sample)) : List (Option ℚ) :=
  rows.map fun row => row.2.map Sample.y

/-- Matched candidate z column (`Z_1` or `Z_2`) of a merged frame. -/
def colMatchedZ (rows : List (Sample × Option Sample)) : List (Option ℚ) :=
  rows.map fun row => row.2.map Sample.z

/-- Merged rows induced by a sequence of aligned pairs (every reference
row carries a present match). -/
def rowsOf (l : List AlignedPair) : List (Sample × Option Sample) :=
  l.map fun p => (p.reference, some p.matched)

/-- Mean absolute error on the x axis of an aligned pair sequence, the
value sklearn computes on the `X`/`X_i` columns. -/
def maeX (l : List AlignedPair) : ℚ :=
  mean (l.map fun p => |p.reference.x - p.matched.x|)

/-- Mean absolute error on the y axis of an aligned pair sequence. -/
def maeY (l : List AlignedPair) : ℚ :=
  mean (l.map fun p => |p.reference.y - p.matched.y|)

/-- Mean absolute error on the z axis of an aligned pair sequence. -/
def maeZ (l : List AlignedPair) : ℚ :=
  mean (l.map fun p => |p.reference.z - p.matched.z|)

/-- Modelled from the spec: MeanSquaredError(x) = mean over pairs of
(ref − matched)².  The MSE metric variant is described by the spec but is
not present in the source file, which only computes MAE. -/
def mseX (l : List AlignedPair) : ℚ :=
  mean (l.map fun p => (p.reference.x - p.matched.x) ^ 2)

/-- Modelled from the spec: MeanSquaredError(y), see `mseX`. -/
def mseY (l : List AlignedPair) : ℚ :=
  mean (l.map fun p => (p.reference.y - p.matched.y) ^ 2)

/-- Modelled from the spec: MeanSquaredError(z), see `mseX`. -/
def mseZ (l : List AlignedPair) : ℚ :=
  mean (l.map fun p => (p.reference.z - p.matched.z) ^ 2)

/-- Decimal rounding to 4 places (half up), modelling `round(v, 4)` as
used for display in the summary table. -/
def round4 (q : ℚ) : ℚ :=
  ((q * 10000 + 1 / 2).floor : ℚ) / 10000

/-- One row of the printed summary table (source lines 75-84). -/
structure TableRow where
  sourceId : String
  xval : ℚ
  yval : ℚ
  zval : ℚ
deriving DecidableEq, Repr

/-- Computation core of `run` (source lines 20-84, plots skipped): merge
both candidate sources onto the reference clock, compute the per-axis
MAEs and assemble the summary table.  The third row is `np.mean` of the
`src3` range columns, not a metric over aligned pairs. -/
def runCore (src1 src2 : List Sample) (src3 : List RefSample) :
    Except RunError (List TableRow) :=
  mergeAsof (src3.map RefSample.toSample) src1 >>= fun rows1 =>
  mergeAsof (src3.map RefSample.toSample) src2 >>= fun rows2 =>
  mean_absolute_error (colRefX rows1) (colMatchedX rows1) >>= fun mae1x =>
  mean_absolute_error (colRefY rows1) (colMatchedY rows1) >>= fun mae1y =>
  mean_absolute_error (colRefZ rows1) (colMatchedZ rows1) >>= fun mae1z =>
  mean_absolute_error (colRefX rows2) (colMatchedX rows2) >>= fun mae2x =>
  mean_absolute_error (colRefY rows2) (colMatchedY rows2) >>= fun mae2y =>
  mean_absolute_error (colRefZ rows2) (colMatchedZ rows2) >>= fun mae2z =>
  .ok [⟨"Source 1", round4 mae1x, round4 mae1y, round4 mae1z⟩,
       ⟨"Source 2", round4 mae2x, round4 mae2y, round4 mae2z⟩,
       ⟨"Source 3", round4 (mean (src3.map RefSample.xrange)),
                    round4 (mean (src3.map RefSample.yrange)),
                    round4 (mean (src3.map RefSample.zrange))⟩]

/-- Caller-visible heap: the three dataframes passed to `run`. -/
structure Mem where
  src1 : List Sample
  src2 : List Sample
  src3 : List RefSample
deriving DecidableEq, Repr

/-- Model of `run(src1, src2, src3)`.  Source lines 12-14 call
`sort_values(by="Time")` with the default `inplace=False` and discard the
returned sorted copies, so the stored frames are unchanged and the merge
still sees the original row order.  Lines 17-18 rebind local names to
renamed copies (resolved statically here).  The result is the pair
(heap after the call, summary-table outcome). -/
def run (m : Mem) : Mem × Except RunError (List TableRow) :=
  let st1 := (sort_values false (fun s => s.t) m.src1).1
  let st2 := (sort_values false (fun s => s.t) m.src2).1
  let st3 := (sort_values false (fun r => r.t) m.src3).1
  (⟨st1, st2, st3⟩, runCore m.src1 m.src2 m.src3)

/-! Helper lemmas about the asof searches. -/

lemma pairwise_of_timesSorted : ∀ (l : List Sample), timesSorted l = true →
    l.Pairwise fun a b => a.t ≤ b.t
  | [], _ => List.Pairwise.nil
  | [a], _ => by simp
  | a :: b :: l, h => by
    have h' : a.t ≤ b.t ∧ timesSorted (b :: l) = true := by
      simpa [timesSorted, Bool.and_eq_true, decide_eq_true_eq] using h
    have ih := pairwise_of_timesSorted (b :: l) h'.2
    refine List.Pairwise.cons ?_ ih
    intro x hx
    rcases List.mem_cons.mp hx with rfl | hx
    · exact h'.1
    · exact le_trans h'.1 (List.rel_of_pairwise_cons ih hx)

lemma asofBackward_mem_le {t : Int} :
    ∀ {l : List Sample} {b : Sample},
      asofBackward t l = some b → b ∈ l ∧ b.t ≤ t := by
  intro l
  induction l with
  | nil => intro b h; simp [asofBackward] at h
  | cons c l ih =>
    intro b h
    by_cases hc : c.t ≤ t
    · rw [asofBackward, if_pos hc] at h
      cases hr : asofBackward t l with
      | none =>
        rw [hr] at h
        injection h with h
        subst h
        exact ⟨List.mem_cons_self c l, hc⟩
      | some b' =>
        rw [hr] at h
        injection h with h
        subst h
        rcases ih hr with ⟨hm, hle⟩
        exact ⟨List.mem_cons_of_mem _ hm, hle⟩
    · rw [asofBackward, if_neg hc] at h
      rcases ih h with ⟨hm, hle⟩
      exact ⟨List.mem_cons_of_mem _ hm, hle⟩

lemma asofForward_mem_le {t : Int} :
    ∀ {l : List Sample} {f : Sample},
      asofForward t l = some f → f ∈ l ∧ t ≤ f.t := by
  intro l
  induction l with
  | nil => intro f h; simp [asofForward] at h
  | cons c l ih =>
    intro f h
    by_cases hc : t ≤ c.t
    · rw [asofForward, if_pos hc] at h
      injection h with h
      subst h
      exact ⟨List.mem_cons_self c l, hc⟩
    · rw [asofForward, if_neg hc] at h
      rcases ih h with ⟨hm, hle⟩
      exact ⟨List.mem_cons_of_mem _ hm, hle⟩

lemma asofBackward_none {t : Int} :
    ∀ {l : List Sample}, asofBackward t l = none →
      ∀ c ∈ l, t < c.t := by
  intro l
  induction l with
  | nil => intro _ c hc; exact absurd hc (List.not_mem_nil c)
  | cons a l ih =>
    intro h c hc
    by_cases ha : a.t ≤ t
    · rw [asofBackward, if_pos ha] at h
      cases hr : asofBackward t l with
      | none => rw [hr] at h; exact Option.noConfusion h
      | some b => rw [hr] at h; exact Option.noConfusion h
    · rw [asofBackward, if_neg ha] at h
      rcases List.mem_cons.mp hc with rfl | hc
      · omega
      · exact ih h c hc

lemma asofForward_none {t : Int} :
    ∀ {l : List Sample}, asofForward t l = none →
      ∀ c ∈ l, c.t < t := by
  intro l
  induction l with
  | nil => intro _ c hc; exact absurd hc (List.not_mem_nil c)
  | cons a l ih =>
    intro h c hc
    by_cases ha : t ≤ a.t
    · rw [asofForward, if_pos ha] at h
      exact Option.noConfusion h
    · rw [asofForward, if_neg ha] at h
      rcases List.mem_cons.mp hc with rfl | hc
      · omega
      · exact ih h c hc

lemma asofBackward_max {t : Int} :
    ∀ {l : List Sample} {b : Sample},
      (l.Pairwise fun a b => a.t ≤ b.t) → asofBackward t l = some b →
      ∀ c ∈ l, c.t ≤ t → c.t ≤ b.t := by
  intro l
  induction l with
  | nil => intro b _ h; simp [asofBackward] at h
  | cons a l ih =>
    intro b hp h c hc hct
    rw [List.pairwise_cons] at hp
    by_cases ha : a.t ≤ t
    · rw [asofBackward, if_pos ha] at h
      cases hr : asofBackward t l with
      | none =>
        rw [hr] at h
        injection h with h
        subst h
        rcases List.mem_cons.mp hc with rfl | hc
        · exact le_refl _
        · exact absurd hct (by have := asofBackward_none hr c hc; omega)
      | some b' =>
        rw [hr] at h
        injection h with h
        subst h
        rcases List.mem_cons.mp hc with rfl | hc
        · exact hp.1 _ (asofBackward_mem_le hr).1
        · exact ih hp.2 hr c hc hct
    · rw [asofBackward, if_neg ha] at h
      rcases List.mem_cons.mp hc with rfl | hc
      · omega
      · exact ih hp.2 h c hc hct

lemma asofForward_min {t : Int} :
    ∀ {l : List Sample} {f : Sample},
      (l.Pairwise fun a b => a.t ≤ b.t) → asofForward t l = some f →
      ∀ c ∈ l, t ≤ c.t → f.t ≤ c.t := by
  intro l
  induction l with
  | nil => intro f _ h; simp [asofForward] at h
  | cons a l ih =>
    intro f hp h c hc hct
    rw [List.pairwise_cons] at hp
    by_cases ha : t ≤ a.t
    · rw [asofForward, if_pos ha] at h
      injection h with h
      subst h
      rcases List.mem_cons.mp hc with rfl | hc
      · exact le_refl _
      · exact hp.1 _ hc
    · rw [asofForward, if_neg ha] at h
      rcases List.mem_cons.mp hc with rfl | hc
      · omega
      · exact ih hp.2 h c hc hct

lemma nearestMatch_nearest {t : Int} {cand : List Sample} {m : Sample}
    (hs : cand.Pairwise fun a b => a.t ≤ b.t)
    (hm : nearestMatch t cand = some m) :
    ∀ c ∈ cand, |t - m.t| ≤ |t - c.t| := by
  intro c hc
  unfold nearestMatch at hm
  cases hb : asofBackward t cand with
  | none =>
    cases hf : asofForward t cand with
    | none =>
      rw [hb, hf] at hm
      exact Option.noConfusion hm
    | some f =>
      rw [hb, hf] at hm
      injection hm with hm
      subst hm
      have hct : t < c.t := asofBackward_none hb c hc
      have h1 : f.t ≤ c.t := asofForward_min hs hf c hc (le_of_lt hct)
      have hff := asofForward_mem_le hf
      rw [abs_of_nonpos (by omega), abs_of_nonpos (by omega)]
      omega
  | some b =>
    cases hf : asofForward t cand with
    | none =>
      rw [hb, hf] at hm
      injection hm with hm
      subst hm
      have hbb := asofBackward_mem_le hb
      have hct : c.t < t := asofForward_none hf c hc
      have h1 : c.t ≤ b.t := asofBackward_max hs hb c hc (le_of_lt hct)
      rw [abs_of_nonneg (by omega), abs_of_nonneg (by omega)]
      omega
    | some f =>
      rw [hb, hf] at hm
      have hm' : (if t - b.t ≤ f.t - t then some b else some f) = some m := hm
      have hbb := asofBackward_mem_le hb
      have hff := asofForward_mem_le hf
      rcases le_total c.t t with hcle | hcge
      · have hcb : c.t ≤ b.t := asofBackward_max hs hb c hc hcle
        by_cases hd : t - b.t ≤ f.t - t
        · rw [if_pos hd] at hm'
          injection hm' with hm'
          subst hm'
          rw [abs_of_nonneg (by omega), abs_of_nonneg (by omega)]
          omega
        · rw [if_neg hd] at hm'
          injection hm' with hm'
          subst hm'
          rw [abs_of_nonpos (by omega), abs_of_nonneg (by omega)]
          omega
      · have hcf : f.t ≤ c.t := asofForward_min hs hf c hc hcge
        by_cases hd : t - b.t ≤ f.t - t
        · rw [if_pos hd] at hm'
          injection hm' with hm'
          subst hm'
          rw [abs_of_nonneg (by omega), abs_of_nonpos (by omega)]
          omega
        · rw [if_neg hd] at hm'
          injection hm' with hm'
          subst hm'
          rw [abs_of_nonpos (by omega), abs_of_nonpos (by omega)]
          omega

lemma nearestMatch_tie_earlier {t : Int} {cand : List Sample} {m : Sample}
    (hs : cand.Pairwise fun a b => a.t ≤ b.t)
    (hm : nearestMatch t cand = some m) :
    ∀ c ∈ cand, |t - c.t| = |t - m.t| → m.t ≤ c.t := by
  intro c hc heq
  unfold nearestMatch at hm
  cases hb : asofBackward t cand with
  | none =>
    cases hf : asofForward t cand with
    | none =>
      rw [hb, hf] at hm
      exact Option.noConfusion hm
    | some f =>
      rw [hb, hf] at hm
      injection hm with hm
      subst hm
      have hct : t < c.t := asofBackward_none hb c hc
      exact asofForward_min hs hf c hc (le_of_lt hct)
  | some b =>
    cases hf : asofForward t cand with
    | none =>
      rw [hb, hf] at hm
      injection hm with hm
      subst hm
      have hbb := asofBackward_mem_le hb
      have hct : c.t < t := asofForward_none hf c hc
      have h1 : c.t ≤ b.t := asofBackward_max hs hb c hc (le_of_lt hct)
      rw [abs_of_nonneg (by omega), abs_of_nonneg (by omega)] at heq
      omega
    | some f =>
      rw [hb, hf] at hm
      have hm' : (if t - b.t ≤ f.t - t then some b else some f) = some m := hm
      have hbb := asofBackward_mem_le hb
      have hff := asofForward_mem_le hf
      by_cases hd : t - b.t ≤ f.t - t
      · rw [if_pos hd] at hm'
        injection hm' with hm'
        subst hm'
        rcases le_total c.t t with hcle | hcge
        · have hcb : c.t ≤ b.t := asofBackward_max hs hb c hc hcle
          rw [abs_of_nonneg (by omega), abs_of_nonneg (by omega)] at heq
          omega
        · omega
      · rw [if_neg hd] at hm'
        injection hm' with hm'
        subst hm'
        rcases le_total c.t t with hcle | hcge
        · have hcb : c.t ≤ b.t := asofBackward_max hs hb c hc hcle
          rw [abs_of_nonneg (by omega), abs_of_nonpos (by omega)] at heq
          omega
        · exact asofForward_min hs hf c hc hcge

lemma nearestMatch_isSome_of_ne_nil {t : Int} {cand : List Sample}
    (h : cand ≠ []) : ∃ m, nearestMatch t cand = some m := by
  cases cand with
  | nil => exact absurd rfl h
  | cons c l =>
    rcases le_total c.t t with hle | hge
    · have hbex : ∃ b, asofBackward t (c :: l) = some b := by
        rw [asofBackward, if_pos hle]
        cases asofBackward t l with
        | none => exact ⟨c, rfl⟩
        | some b => exact ⟨b, rfl⟩
      rcases hbex with ⟨b, hb⟩
      unfold nearestMatch
      rw [hb]
      cases hf : asofForward t (c :: l) with
      | none => exact ⟨b, rfl⟩
      | some f =>
        by_cases hd : t - b.t ≤ f.t - t
        · refine ⟨b, ?_⟩
          show (if t - b.t ≤ f.t - t then some b else some f) = some b
          rw [if_pos hd]
        · refine ⟨f, ?_⟩
          show (if t - b.t ≤ f.t - t then some b else some f) = some f
          rw [if_neg hd]
    · have hf : asofForward t (c :: l) = some c := by
        rw [asofForward, if_pos hge]
      unfold nearestMatch
      rw [hf]
      cases hb : asofBackward t (c :: l) with
      | none => exact ⟨c, rfl⟩
      | some b =>
        by_cases hd : t - b.t ≤ c.t - t
        · refine ⟨b, ?_⟩
          show (if t - b.t ≤ c.t - t then some b else some c) = some b
          rw [if_pos hd]
        · refine ⟨c, ?_⟩
          show (if t - b.t ≤ c.t - t then some b else some c) = some c
          rw [if_neg hd]

lemma mergeAsof_ok_iff {ref cand : List Sample}
    {l : List (Sample × Option Sample)} :
    mergeAsof ref cand = .ok l ↔
      timesSorted ref = true ∧ timesSorted cand = true ∧
        l = ref.map fun r => (r, nearestMatch r.t cand) := by
  unfold mergeAsof
  by_cases h1 : timesSorted ref
  · by_cases h2 : timesSorted cand
    · simp [h1, h2, eq_comm]
    · simp [h1, h2]
  · simp [h1]

/-! Helper lemmas about the evaluator and the summary table. -/

lemma seqCol_map_some {α : Type} (g : α → ℚ) :
    ∀ (l : List α), seqCol (l.map fun a => some (g a)) = some (l.map g)
  | [] => rfl
  | a :: l => by
    simp [seqCol, seqCol_map_some g l]

lemma mae_cols_eval (f : Sample → ℚ) (l : List AlignedPair) (h : l ≠ []) :
    mean_absolute_error (l.map fun p => some (f p.reference))
        (l.map fun p => some (f p.matched)) =
      .ok (mean (l.map fun p => |f p.reference - f p.matched|)) := by
  have hlen : ¬((l.map fun p => some (f p.reference)).length ≠
      (l.map fun p => some (f p.matched)).length) := by simp
  have hne : ¬((l.map fun p => some (f p.reference)).length = 0) := by
    simpa using h
  unfold mean_absolute_error
  rw [if_neg hlen, if_neg hne, seqCol_map_some, seqCol_map_some]
  show Except.ok (mean ((((l.map fun p => f p.reference)).zip
      (l.map fun p => f p.matched)).map fun p => |p.1 - p.2|)) = _
  rw [List.zip_map']
  rw [List.map_map]
  rfl

lemma colRefX_rowsOf (l : List AlignedPair) :
    colRefX (rowsOf l) = l.map fun p => some p.reference.x := by
  unfold colRefX rowsOf
  rw [List.map_map]
  rfl

lemma colRefY_rowsOf (l : List AlignedPair) :
    colRefY (rowsOf l) = l.map fun p => some p.reference.y := by
  unfold colRefY rowsOf
  rw [List.map_map]
  rfl

lemma colRefZ_rowsOf (l : List AlignedPair) :
    colRefZ (rowsOf l) = l.map fun p => some p.reference.z := by
  unfold colRefZ rowsOf
  rw [List.map_map]
  rfl

lemma colMatchedX_rowsOf (l : List AlignedPair) :
    colMatchedX (rowsOf l) = l.map fun p => some p.matched.x := by
  unfold colMatchedX rowsOf
  rw [List.map_map]
  rfl

lemma colMatchedY_rowsOf (l : List AlignedPair) :
    colMatchedY (rowsOf l) = l.map fun p => some p.matched.y := by
  unfold colMatchedY rowsOf
  rw [List.map_map]
  rfl

lemma colMatchedZ_rowsOf (l : List AlignedPair) :
    colMatchedZ (rowsOf l) = l.map fun p => some p.matched.z := by
  unfold colMatchedZ rowsOf
  rw [List.map_map]
  rfl

lemma list_sum_nonneg_q : ∀ (l : List ℚ), (∀ x ∈ l, 0 ≤ x) → 0 ≤ l.sum
  | [], _ => le_refl 0
  | a :: l, h => by
    have h1 := h a (List.mem_cons_self a l)
    have h2 := list_sum_nonneg_q l fun x hx => h x (List.mem_cons_of_mem a hx)
    rw [List.sum_cons]
    exact add_nonneg h1 h2

lemma list_sum_zero_iff : ∀ (l : List ℚ), (∀ x ∈ l, 0 ≤ x) →
    (l.sum = 0 ↔ ∀ x ∈ l, x = 0)
  | [], _ => by simp
  | a :: l, h => by
    have ha := h a (List.mem_cons_self a l)
    have hl : ∀ x ∈ l, 0 ≤ x := fun x hx => h x (List.mem_cons_of_mem a hx)
    have hs := list_sum_nonneg_q l hl
    have ih := list_sum_zero_iff l hl
    rw [List.sum_cons]
    constructor
    · intro h0
      have ha0 : a = 0 := by linarith
      have hs0 : l.sum = 0 := by linarith
      intro x hx
      rcases List.mem_cons.mp hx with rfl | hx
      · exact ha0
      · exact (ih.mp hs0) x hx
    · intro hall
      have h1 : a = 0 := hall a (List.mem_cons_self a l)
      have h2 : l.sum = 0 := ih.mpr fun x hx => hall x (List.mem_cons_of_mem a hx)
      rw [h1, h2, add_zero]

lemma mean_nonneg_zero_iff (l : List ℚ) (hne : l ≠ []) (h : ∀ x ∈ l, 0 ≤ x) :
    0 ≤ mean l ∧ (mean l = 0 ↔ ∀ x ∈ l, x = 0) := by
  have hlen : (0 : ℚ) < l.length := by
    exact_mod_cast List.length_pos.mpr hne
  have hsum := list_sum_nonneg_q l h
  constructor
  · exact div_nonneg hsum (le_of_lt hlen)
  · rw [mean, div_eq_zero_iff]
    constructor
    · rintro (hs | hl)
      · exact (list_sum_zero_iff l h).mp hs
      · exact absurd hl (ne_of_gt hlen)
    · intro hall
      exact Or.inl ((list_sum_zero_iff l h).mpr hall)

lemma mean_map_nonneg_zero_iff (F : AlignedPair → ℚ) (G : AlignedPair → Prop)
    (l : List AlignedPair) (hne : l ≠ [])
    (h0 : ∀ p, 0 ≤ F p) (hiff : ∀ p, F p = 0 ↔ G p) :
    0 ≤ mean (l.map F) ∧ (mean (l.map F) = 0 ↔ ∀ p ∈ l, G p) := by
  have hne' : l.map F ≠ [] := by simpa using hne
  have hnn : ∀ x ∈ l.map F, 0 ≤ x := by
    intro x hx
    rcases List.mem_map.mp hx with ⟨p, -, rfl⟩
    exact h0 p
  rcases mean_nonneg_zero_iff (l.map F) hne' hnn with ⟨hp, hz⟩
  refine ⟨hp, ?_⟩
  rw [hz]
  constructor
  · intro hall p hp'
    exact (hiff p).mp (hall (F p) (List.mem_map_of_mem F hp'))
  · intro hall x hx
    rcases List.mem_map.mp hx with ⟨p, hp', rfl⟩
    exact (hiff p).mpr (hall p hp')

lemma except_bind_ok {ε α β : Type} {x : Except ε α} {f : α → Except ε β}
    {b : β} (h : (x >>= f) = .ok b) : ∃ a, x = .ok a ∧ f a = .ok b := by
  cases x with
  | error e =>
    have h' : (Except.error e : Except ε β) = .ok b := h
    exact Except.noConfusion h'
  | ok a => exact ⟨a, rfl, h⟩

lemma runCore_ok_shape (src1 src2 : List Sample) (src3 : List RefSample)
    (t : List TableRow) (h : runCore src1 src2 src3 = .ok t) :
    ∃ a b c d e f,
      t = [⟨"Source 1", round4 a, round4 b, round4 c⟩,
           ⟨"Source 2", round4 d, round4 e, round4 f⟩,
           ⟨"Source 3", round4 (mean (src3.map RefSample.xrange)),
                        round4 (mean (src3.map RefSample.yrange)),
                        round4 (mean (src3.map RefSample.zrange))⟩] := by
  unfold runCore at h
  obtain ⟨rows1, -, h⟩ := except_bind_ok h
  obtain ⟨rows2, -, h⟩ := except_bind_ok h
  obtain ⟨m1x, -, h⟩ := except_bind_ok h
  obtain ⟨m1y, -, h⟩ := except_bind_ok h
  obtain ⟨m1z, -, h⟩ := except_bind_ok h
  obtain ⟨m2x, -, h⟩ := except_bind_ok h
  obtain ⟨m2y, -, h⟩ := except_bind_ok h
  obtain ⟨m2z, -, h⟩ := except_bind_ok h
  exact ⟨m1x, m1y, m1z, m2x, m2y, m2z, (Except.ok.inj h).symm⟩

lemma timesSorted_nil : timesSorted [] = true := by decide

lemma nearestMatch_nil (t : Int) : nearestMatch t [] = none := rfl

/-! Claim theorems. -/

/-- C1: for non-empty reference and candidate series, every pair produced
by the alignment step matches the reference sample with a nearest
candidate sample: no candidate has a strictly smaller absolute timestamp
difference, and when two candidate timestamps are equidistant the earlier
one is the match. -/
theorem align_pairs_nearest_tie_earlier (ref cand : List Sample)
    (href : ref ≠ []) (hcand : cand ≠ [])
    (l : List (Sample × Option Sample)) (h : mergeAsof ref cand = .ok l)
    (r m : Sample) (hmem : (r, some m) ∈ l) (c : Sample) (hc : c ∈ cand) :
    |r.t - m.t| ≤ |r.t - c.t| ∧ (|r.t - c.t| = |r.t - m.t| → m.t ≤ c.t) := by
  rcases mergeAsof_ok_iff.mp h with ⟨h1, h2, rfl⟩
  rcases List.mem_map.mp hmem with ⟨a, ha, heq⟩
  have hfst : a = r := (Prod.ext_iff.mp heq).1
  have hsnd : nearestMatch a.t cand = some m := by
    have := (Prod.ext_iff.mp heq).2
    exact this
  subst hfst
  have hp := pairwise_of_timesSorted cand h2
  exact ⟨nearestMatch_nearest hp hsnd c hc,
    fun he => nearestMatch_tie_earlier hp hsnd c hc he⟩

/-- Witness for C1 at a concrete input: reference time 5, candidates at
times 4 and 6 are equidistant and the earlier one (4) is matched. -/
theorem align_pairs_nearest_tie_earlier_w :
    |(5 : Int) - (4 : Int)| ≤ |(5 : Int) - (6 : Int)| ∧
      (|(5 : Int) - (6 : Int)| = |(5 : Int) - (4 : Int)| →
        (4 : Int) ≤ (6 : Int)) := by
  have h := align_pairs_nearest_tie_earlier
    [⟨5, 0, 0, 0⟩] [⟨4, 0, 0, 0⟩, ⟨6, 0, 0, 0⟩]
    (by decide) (by decide)
    [(⟨5, 0, 0, 0⟩, some ⟨4, 0, 0, 0⟩)] (by rfl)
    ⟨5, 0, 0, 0⟩ ⟨4, 0, 0, 0⟩ (by decide) ⟨6, 0, 0, 0⟩ (by decide)
  exact h

/-- C2: for non-empty reference and candidate series, the aligned
sequence has the length of the reference series and every reference
sample carries a present match (no distance cutoff). -/
theorem align_length_eq_ref (ref cand : List Sample)
    (href : ref ≠ []) (hcand : cand ≠ [])
    (l : List (Sample × Option Sample)) (h : mergeAsof ref cand = .ok l) :
    l.length = ref.length ∧ ∀ p ∈ l, ∃ m, p.2 = some m := by
  rcases mergeAsof_ok_iff.mp h with ⟨-, -, rfl⟩
  constructor
  · simp
  · intro p hp
    rcases List.mem_map.mp hp with ⟨a, ha, rfl⟩
    exact nearestMatch_isSome_of_ne_nil hcand

/-- Witness for C2 at a concrete input. -/
theorem align_length_eq_ref_w :
    ([((⟨0, 0, 0, 0⟩ : Sample), some (⟨2, 1, 1, 1⟩ : Sample))]).length =
      ([(⟨0, 0, 0, 0⟩ : Sample)]).length ∧
    ∀ p ∈ [((⟨0, 0, 0, 0⟩ : Sample), some (⟨2, 1, 1, 1⟩ : Sample))],
      ∃ m, p.2 = some m :=
  align_length_eq_ref [⟨0, 0, 0, 0⟩] [⟨2, 1, 1, 1⟩] (by decide) (by decide)
    [(⟨0, 0, 0, 0⟩, some ⟨2, 1, 1, 1⟩)] (by rfl)

/-- C6 counterexample: aligning a non-empty reference series against an
empty candidate series does not fail at all; it returns one row with a
missing match instead of raising an empty-series failure. -/
theorem align_empty_candidate_ok_cex :
    mergeAsof [⟨0, 0, 0, 0⟩] [] = .ok [(⟨0, 0, 0, 0⟩, none)] := rfl

/-- C6 amended: the alignment step raises no empty-series failure: an
empty candidate series yields one row per reference sample with a missing
match, and an empty reference series yields an empty result. -/
theorem align_empty_series_no_error (ref cand : List Sample)
    (h1 : timesSorted ref = true) (h2 : timesSorted cand = true) :
    mergeAsof ref [] = .ok (ref.map fun r => (r, none)) ∧
    mergeAsof [] cand = .ok [] := by
  constructor
  · simp [mergeAsof, h1, timesSorted_nil, nearestMatch_nil]
  · simp [mergeAsof, h2, timesSorted_nil]

/-- Witness for the amended C6 at concrete inputs. -/
theorem align_empty_series_no_error_w :
    mergeAsof [(⟨3, 0, 0, 0⟩ : Sample)] [] =
      .ok ([(⟨3, 0, 0, 0⟩ : Sample)].map fun r => (r, none)) ∧
    mergeAsof [] [(⟨7, 1, 2, 3⟩ : Sample)] = .ok [] :=
  align_empty_series_no_error [⟨3, 0, 0, 0⟩] [⟨7, 1, 2, 3⟩]
    (by decide) (by decide)

/-- C10: `run` leaves the caller-visible input frames unchanged: the
`sort_values` copies are discarded (default `inplace=False`) and `rename`
only rebinds local names, so the heap after the call equals the heap
before it. -/
theorem run_preserves_caller_frames (m : Mem) : (run m).1 = m := rfl
lemma rows_all_some_rowsOf : ∀ (rows : List (Sample × Option Sample)),
    (∀ p ∈ rows, ∃ m, p.2 = some m) → ∃ l : List AlignedPair, rows = rowsOf l
  | [], _ => ⟨[], rfl⟩
  | (r, o) :: rows, h => by
    obtain ⟨m, hm⟩ := h (r, o) (List.mem_cons_self _ _)
    obtain ⟨l, hl⟩ :=
      rows_all_some_rowsOf rows fun p hp => h p (List.mem_cons_of_mem _ hp)
    refine ⟨⟨r, m⟩ :: l, ?_⟩
    have hm' : o = some m := hm
    rw [hm', hl]
    rfl

lemma runCore_ok_of_sorted (src1 src2 : List Sample) (src3 : List RefSample)
    (h1 : timesSorted src1 = true) (h2 : timesSorted src2 = true)
    (h3 : timesSorted (src3.map RefSample.toSample) = true)
    (hne1 : src1 ≠ []) (hne2 : src2 ≠ []) (hne3 : src3 ≠ []) :
    ∃ t, runCore src1 src2 src3 = .ok t := by
  have hm1 : mergeAsof (src3.map RefSample.toSample) src1 =
      .ok ((src3.map RefSample.toSample).map fun r =>
        (r, nearestMatch r.t src1)) :=
    mergeAsof_ok_iff.mpr ⟨h3, h1, rfl⟩
  have hm2 : mergeAsof (src3.map RefSample.toSample) src2 =
      .ok ((src3.map RefSample.toSample).map fun r =>
        (r, nearestMatch r.t src2)) :=
    mergeAsof_ok_iff.mpr ⟨h3, h2, rfl⟩
  have hs1 : ∀ p ∈ (src3.map RefSample.toSample).map fun r =>
      (r, nearestMatch r.t src1), ∃ m, p.2 = some m := by
    intro p hp
    rcases List.mem_map.mp hp with ⟨a, -, rfl⟩
    exact nearestMatch_isSome_of_ne_nil hne1
  have hs2 : ∀ p ∈ (src3.map RefSample.toSample).map fun r =>
      (r, nearestMatch r.t src2), ∃ m, p.2 = some m := by
    intro p hp
    rcases List.mem_map.mp hp with ⟨a, -, rfl⟩
    exact nearestMatch_isSome_of_ne_nil hne2
  obtain ⟨l1, hl1⟩ := rows_all_some_rowsOf _ hs1
  obtain ⟨l2, hl2⟩ := rows_all_some_rowsOf _ hs2
  have hr1 : rowsOf l1 ≠ [] := by
    rw [← hl1]
    simpa using hne3
  have hr2 : rowsOf l2 ≠ [] := by
    rw [← hl2]
    simpa using hne3
  have hlne1 : l1 ≠ [] := by
    intro h0
    rw [h0] at hr1
    exact hr1 rfl
  have hlne2 : l2 ≠ [] := by
    intro h0
    rw [h0] at hr2
    exact hr2 rfl
  rw [hl1] at hm1
  rw [hl2] at hm2
  have e1x := mae_cols_eval (fun s => s.x) l1 hlne1
  have e1y := mae_cols_eval (fun s => s.y) l1 hlne1
  have e1z := mae_cols_eval (fun s => s.z) l1 hlne1
  have e2x := mae_cols_eval (fun s => s.x) l2 hlne2
  have e2y := mae_cols_eval (fun s => s.y) l2 hlne2
  have e2z := mae_cols_eval (fun s => s.z) l2 hlne2
  rw [← colRefX_rowsOf, ← colMatchedX_rowsOf] at e1x e2x
  rw [← colRefY_rowsOf, ← colMatchedY_rowsOf] at e1y e2y
  rw [← colRefZ_rowsOf, ← colMatchedZ_rowsOf] at e1z e2z
  have hfinal : runCore src1 src2 src3 =
      .ok [⟨"Source 1", round4 (maeX l1), round4 (maeY l1),
              round4 (maeZ l1)⟩,
           ⟨"Source 2", round4 (maeX l2), round4 (maeY l2),
              round4 (maeZ l2)⟩,
           ⟨"Source 3", round4 (mean (src3.map RefSample.xrange)),
              round4 (mean (src3.map RefSample.yrange)),
              round4 (mean (src3.map RefSample.zrange))⟩] := by
    unfold runCore
    rw [hm1]
    show (mergeAsof (src3.map RefSample.toSample) src2 >>= _) = _
    rw [hm2]
    show (mean_absolute_error (colRefX (rowsOf l1))
      (colMatchedX (rowsOf l1)) >>= _) = _
    rw [e1x]
    show (mean_absolute_error (colRefY (rowsOf l1))
      (colMatchedY (rowsOf l1)) >>= _) = _
    rw [e1y]
    show (mean_absolute_error (colRefZ (rowsOf l1))
      (colMatchedZ (rowsOf l1)) >>= _) = _
    rw [e1z]
    show (mean_absolute_error (colRefX (rowsOf l2))
      (colMatchedX (rowsOf l2)) >>= _) = _
    rw [e2x]
    show (mean_absolute_error (colRefY (rowsOf l2))
      (colMatchedY (rowsOf l2)) >>= _) = _
    rw [e2y]
    show (mean_absolute_error (colRefZ (rowsOf l2))
      (colMatchedZ (rowsOf l2)) >>= _) = _
    rw [e2z]
    rfl
  exact ⟨_, hfinal⟩

/-- C3: the script calls `sort_values` without assigning the result
(default `inplace=False` returns a copy, which lines 12-14 discard), so
the frames reach `merge_asof` in their original order and an
out-of-order reference series makes the run fail with the unsorted-keys
`ValueError` instead of being silently sorted; the same run with the
discarded sort actually applied succeeds. -/
theorem discarded_sort_unsorted_input_raises :
    (run ⟨[⟨0, 0, 0, 0⟩], [⟨0, 0, 0, 0⟩],
        [⟨10, 0, 0, 0, 1, 1, 1⟩, ⟨0, 0, 0, 0, 1, 1, 1⟩]⟩).2 =
      .error .leftKeysNotSorted ∧
    ∃ t, (run ⟨[⟨0, 0, 0, 0⟩], [⟨0, 0, 0, 0⟩],
        sortByKey (fun r => r.t)
          [⟨10, 0, 0, 0, 1, 1, 1⟩, ⟨0, 0, 0, 0, 1, 1, 1⟩]⟩).2 = .ok t := by
  refine ⟨rfl, ?_⟩
  exact runCore_ok_of_sorted [⟨0, 0, 0, 0⟩] [⟨0, 0, 0, 0⟩]
    (sortByKey (fun r => r.t)
      [⟨10, 0, 0, 0, 1, 1, 1⟩, ⟨0, 0, 0, 0, 1, 1, 1⟩])
    (by decide) (by decide) (by decide) (by decide) (by decide) (by decide)

/-- C4: on every non-empty aligned pair sequence the evaluator metric
(sklearn mean_absolute_error on the reference and matched axis columns)
equals, per axis, the mean over the pairs of the absolute difference of
reference and matched values. -/
theorem evaluator_mae_is_mean_abs_diff (l : List AlignedPair) (h : l ≠ []) :
    mean_absolute_error (colRefX (rowsOf l)) (colMatchedX (rowsOf l)) =
      .ok (maeX l) ∧
    mean_absolute_error (colRefY (rowsOf l)) (colMatchedY (rowsOf l)) =
      .ok (maeY l) ∧
    mean_absolute_error (colRefZ (rowsOf l)) (colMatchedZ (rowsOf l)) =
      .ok (maeZ l) := by
  refine ⟨?_, ?_, ?_⟩
  · rw [colRefX_rowsOf, colMatchedX_rowsOf]
    exact mae_cols_eval (fun s => s.x) l h
  · rw [colRefY_rowsOf, colMatchedY_rowsOf]
    exact mae_cols_eval (fun s => s.y) l h
  · rw [colRefZ_rowsOf, colMatchedZ_rowsOf]
    exact mae_cols_eval (fun s => s.z) l h

/-- Witness for C4 at a concrete one-pair sequence. -/
theorem evaluator_mae_is_mean_abs_diff_w :
    mean_absolute_error (colRefX (rowsOf [⟨⟨0, 1, 2, 3⟩, ⟨1, 2, 4, 6⟩⟩]))
        (colMatchedX (rowsOf [⟨⟨0, 1, 2, 3⟩, ⟨1, 2, 4, 6⟩⟩])) =
      .ok (maeX [⟨⟨0, 1, 2, 3⟩, ⟨1, 2, 4, 6⟩⟩]) ∧
    mean_absolute_error (colRefY (rowsOf [⟨⟨0, 1, 2, 3⟩, ⟨1, 2, 4, 6⟩⟩]))
        (colMatchedY (rowsOf [⟨⟨0, 1, 2, 3⟩, ⟨1, 2, 4, 6⟩⟩])) =
      .ok (maeY [⟨⟨0, 1, 2, 3⟩, ⟨1, 2, 4, 6⟩⟩]) ∧
    mean_absolute_error (colRefZ (rowsOf [⟨⟨0, 1, 2, 3⟩, ⟨1, 2, 4, 6⟩⟩]))
        (colMatchedZ (rowsOf [⟨⟨0, 1, 2, 3⟩, ⟨1, 2, 4, 6⟩⟩])) =
      .ok (maeZ [⟨⟨0, 1, 2, 3⟩, ⟨1, 2, 4, 6⟩⟩]) :=
  evaluator_mae_is_mean_abs_diff [⟨⟨0, 1, 2, 3⟩, ⟨1, 2, 4, 6⟩⟩] (by decide)

/-- C5 counterexample: a concrete run comparing exactly two candidate
sources against the same reference succeeds with a summary table that
contains no Difference row, only the two source rows and the Source 3
passthrough row. -/
theorem summary_no_difference_row_cex :
    ∃ t, (run ⟨[⟨0, 1, 1, 1⟩], [⟨0, 2, 2, 2⟩],
        [⟨0, 1, 1, 1, 2, 2, 2⟩]⟩).2 = .ok t ∧
      t.map TableRow.sourceId = ["Source 1", "Source 2", "Source 3"] ∧
      ∀ row ∈ t, row.sourceId ≠ "Difference" := by
  obtain ⟨t, ht⟩ := runCore_ok_of_sorted [⟨0, 1, 1, 1⟩] [⟨0, 2, 2, 2⟩]
    [⟨0, 1, 1, 1, 2, 2, 2⟩]
    (by decide) (by decide) (by decide) (by decide) (by decide) (by decide)
  rcases runCore_ok_shape _ _ _ _ ht with ⟨a, b, c, d, e, f, rfl⟩
  refine ⟨_, ht, rfl, ?_⟩
  intro row hrow
  rcases List.mem_cons.mp hrow with rfl | hrow
  · simp
  rcases List.mem_cons.mp hrow with rfl | hrow
  · simp
  rcases List.mem_cons.mp hrow with rfl | hrow
  · simp
  · simp at hrow

/-- C5 amended: whenever the run succeeds, the summary table consists of
one row per compared source plus the Source 3 passthrough row, and never
contains a Difference row. -/
theorem summary_rows_no_difference (src1 src2 : List Sample)
    (src3 : List RefSample) (t : List TableRow)
    (h : (run ⟨src1, src2, src3⟩).2 = .ok t) :
    t.map TableRow.sourceId = ["Source 1", "Source 2", "Source 3"] ∧
    ∀ row ∈ t, row.sourceId ≠ "Difference" := by
  have h' : runCore src1 src2 src3 = .ok t := h
  rcases runCore_ok_shape _ _ _ _ h' with ⟨a, b, c, d, e, f, rfl⟩
  refine ⟨rfl, ?_⟩
  intro row hrow
  rcases List.mem_cons.mp hrow with rfl | hrow
  · simp
  rcases List.mem_cons.mp hrow with rfl | hrow
  · simp
  rcases List.mem_cons.mp hrow with rfl | hrow
  · simp
  · simp at hrow

/-- Witness for the amended C5 at a concrete input. -/
theorem summary_rows_no_difference_w :
    ∃ t, (run ⟨[⟨2, 1, 1, 1⟩], [⟨2, 5, 5, 5⟩],
        [⟨2, 1, 1, 1, 3, 3, 3⟩]⟩).2 = .ok t ∧
      (t.map TableRow.sourceId = ["Source 1", "Source 2", "Source 3"] ∧
       ∀ row ∈ t, row.sourceId ≠ "Difference") := by
  obtain ⟨t, ht⟩ := runCore_ok_of_sorted [⟨2, 1, 1, 1⟩] [⟨2, 5, 5, 5⟩]
    [⟨2, 1, 1, 1, 3, 3, 3⟩]
    (by decide) (by decide) (by decide) (by decide) (by decide) (by decide)
  exact ⟨t, ht, summary_rows_no_difference _ _ _ t ht⟩

/-- C7: on every non-empty aligned sequence and each axis, both MAE
(from the source) and MSE (modelled from the spec) are nonnegative and
vanish exactly when every paired reference value equals its matched
value on that axis. -/
theorem metrics_nonneg_zero_iff_identical (l : List AlignedPair)
    (h : l ≠ []) :
    (0 ≤ maeX l ∧ (maeX l = 0 ↔ ∀ p ∈ l, p.reference.x = p.matched.x)) ∧
    (0 ≤ maeY l ∧ (maeY l = 0 ↔ ∀ p ∈ l, p.reference.y = p.matched.y)) ∧
    (0 ≤ maeZ l ∧ (maeZ l = 0 ↔ ∀ p ∈ l, p.reference.z = p.matched.z)) ∧
    (0 ≤ mseX l ∧ (mseX l = 0 ↔ ∀ p ∈ l, p.reference.x = p.matched.x)) ∧
    (0 ≤ mseY l ∧ (mseY l = 0 ↔ ∀ p ∈ l, p.reference.y = p.matched.y)) ∧
    (0 ≤ mseZ l ∧ (mseZ l = 0 ↔ ∀ p ∈ l, p.reference.z = p.matched.z)) := by
  simp only [maeX, maeY, maeZ, mseX, mseY, mseZ]
  refine ⟨?_, ?_, ?_, ?_, ?_, ?_⟩
  · exact mean_map_nonneg_zero_iff (fun p => |p.reference.x - p.matched.x|)
      (fun p => p.reference.x = p.matched.x) l h (fun p => abs_nonneg _)
      (fun p => by rw [abs_eq_zero, sub_eq_zero])
  · exact mean_map_nonneg_zero_iff (fun p => |p.reference.y - p.matched.y|)
      (fun p => p.reference.y = p.matched.y) l h (fun p => abs_nonneg _)
      (fun p => by rw [abs_eq_zero, sub_eq_zero])
  · exact mean_map_nonneg_zero_iff (fun p => |p.reference.z - p.matched.z|)
      (fun p => p.reference.z = p.matched.z) l h (fun p => abs_nonneg _)
      (fun p => by rw [abs_eq_zero, sub_eq_zero])
  · exact mean_map_nonneg_zero_iff
      (fun p => (p.reference.x - p.matched.x) ^ 2)
      (fun p => p.reference.x = p.matched.x) l h (fun p => sq_nonneg _)
      (fun p => by rw [sq_eq_zero_iff, sub_eq_zero])
  · exact mean_map_nonneg_zero_iff
      (fun p => (p.reference.y - p.matched.y) ^ 2)
      (fun p => p.reference.y = p.matched.y) l h (fun p => sq_nonneg _)
      (fun p => by rw [sq_eq_zero_iff, sub_eq_zero])
  · exact mean_map_nonneg_zero_iff
      (fun p => (p.reference.z - p.matched.z) ^ 2)
      (fun p => p.reference.z = p.matched.z) l h (fun p => sq_nonneg _)
      (fun p => by rw [sq_eq_zero_iff, sub_eq_zero])

/-- Witness for C7 at a concrete one-pair sequence. -/
theorem metrics_nonneg_zero_iff_identical_w :
    0 ≤ maeX [⟨⟨0, 1, 1, 1⟩, ⟨0, 1, 1, 1⟩⟩] ∧
      (maeX [⟨⟨0, 1, 1, 1⟩, ⟨0, 1, 1, 1⟩⟩] = 0 ↔
        ∀ p ∈ [(⟨⟨0, 1, 1, 1⟩, ⟨0, 1, 1, 1⟩⟩ : AlignedPair)],
          p.reference.x = p.matched.x) :=
  (metrics_nonneg_zero_iff_identical [⟨⟨0, 1, 1, 1⟩, ⟨0, 1, 1, 1⟩⟩]
    (by decide)).1

/-- C8: whenever the run succeeds, the third summary row is the Source 3
passthrough row: per axis the mean of the reference range column,
rounded to 4 decimal places, not a value of the error metric. -/
theorem summary_third_row_passthrough (src1 src2 : List Sample)
    (src3 : List RefSample) (t : List TableRow)
    (h : (run ⟨src1, src2, src3⟩).2 = .ok t) :
    t[2]? = some ⟨"Source 3",
      round4 (mean (src3.map RefSample.xrange)),
      round4 (mean (src3.map RefSample.yrange)),
      round4 (mean (src3.map RefSample.zrange))⟩ := by
  have h' : runCore src1 src2 src3 = .ok t := h
  rcases runCore_ok_shape _ _ _ _ h' with ⟨a, b, c, d, e, f, rfl⟩
  rfl

/-- Witness for C8 at a concrete input. -/
theorem summary_third_row_passthrough_w :
    ∃ t, (run ⟨[⟨1, 1, 1, 1⟩], [⟨1, 3, 3, 3⟩],
        [⟨1, 1, 1, 1, 4, 4, 4⟩]⟩).2 = .ok t ∧
      t[2]? = some ⟨"Source 3",
        round4 (mean ([(⟨1, 1, 1, 1, 4, 4, 4⟩ : RefSample)].map
          RefSample.xrange)),
        round4 (mean ([(⟨1, 1, 1, 1, 4, 4, 4⟩ : RefSample)].map
          RefSample.yrange)),
        round4 (mean ([(⟨1, 1, 1, 1, 4, 4, 4⟩ : RefSample)].map
          RefSample.zrange))⟩ := by
  obtain ⟨t, ht⟩ := runCore_ok_of_sorted [⟨1, 1, 1, 1⟩] [⟨1, 3, 3, 3⟩]
    [⟨1, 1, 1, 1, 4, 4, 4⟩]
    (by decide) (by decide) (by decide) (by decide) (by decide) (by decide)
  exact ⟨t, ht, summary_third_row_passthrough _ _ _ t ht⟩

/-- C9: the evaluator fails on an aligned sequence of zero pairs (sklearn
rejects zero samples, modelled as the metricEmptyInput failure) and
returns values, raising no such failure, on every non-empty aligned
sequence. -/
theorem evaluator_empty_pairs_policy (l : List AlignedPair) :
    (l = [] →
      mean_absolute_error (colRefX (rowsOf l)) (colMatchedX (rowsOf l)) =
        .error .metricEmptyInput) ∧
    (l ≠ [] → ∃ vx vy vz,
      mean_absolute_error (colRefX (rowsOf l)) (colMatchedX (rowsOf l)) =
        .ok vx ∧
      mean_absolute_error (colRefY (rowsOf l)) (colMatchedY (rowsOf l)) =
        .ok vy ∧
      mean_absolute_error (colRefZ (rowsOf l)) (colMatchedZ (rowsOf l)) =
        .ok vz) := by
  constructor
  · rintro rfl
    rfl
  · intro h
    refine ⟨maeX l, maeY l, maeZ l, ?_, ?_, ?_⟩
    · rw [colRefX_rowsOf, colMatchedX_rowsOf]
      exact mae_cols_eval (fun s => s.x) l h
    · rw [colRefY_rowsOf, colMatchedY_rowsOf]
      exact mae_cols_eval (fun s => s.y) l h
    · rw [colRefZ_rowsOf, colMatchedZ_rowsOf]
      exact mae_cols_eval (fun s => s.z) l h

/-- Witness for C9: the empty sequence fails with the empty-input
failure and a concrete one-pair sequence evaluates without it. -/
theorem evaluator_empty_pairs_policy_w :
    mean_absolute_error (colRefX (rowsOf ([] : List AlignedPair)))
        (colMatchedX (rowsOf ([] : List AlignedPair))) =
      .error .metricEmptyInput ∧
    ∃ vx vy vz,
      mean_absolute_error
          (colRefX (rowsOf [⟨⟨0, 1, 2, 3⟩, ⟨1, 2, 3, 4⟩⟩]))
          (colMatchedX (rowsOf [⟨⟨0, 1, 2, 3⟩, ⟨1, 2, 3, 4⟩⟩])) = .ok vx ∧
      mean_absolute_error
          (colRefY (rowsOf [⟨⟨0, 1, 2, 3⟩, ⟨1, 2, 3, 4⟩⟩]))
          (colMatchedY (rowsOf [⟨⟨0, 1, 2, 3⟩, ⟨1, 2, 3, 4⟩⟩])) = .ok vy ∧
      mean_absolute_error
          (colRefZ (rowsOf [⟨⟨0, 1, 2, 3⟩, ⟨1, 2, 3, 4⟩⟩]))
          (colMatchedZ (rowsOf [⟨⟨0, 1, 2, 3⟩, ⟨1, 2, 3, 4⟩⟩])) = .ok vz :=
  ⟨(evaluator_empty_pairs_policy []).1 rfl,
   (evaluator_empty_pairs_policy [⟨⟨0, 1, 2, 3⟩, ⟨1, 2, 3, 4⟩⟩]).2
     (by decide)⟩
